import Mathlib

/-!
Verification of the `pyth_rs` price-oracle HTTP client (`src/pyth_rs/mod.rs`).

The client builds GET requests against a stored base URL:
* `get_price` uses route `"updates/price/"` and a query made of one
  `("ids[]", hex id)` pair per identifier followed by one
  `("timestamp", decimal)` pair;
* `get_latest_price` uses route `"updates/price/latest"` and only the
  `("ids[]", hex id)` pairs.

Identifiers are formatted with Rust's lowercase-hex formatter (the format
spec `x`), timestamps with `to_string` (decimal).  Both emit the minimal
digit sequence for the value, with `0` rendered as a single `0` digit.
-/

/-- Rust's digit-to-character table for integer formatting: digits below
ten map to `0`..`9` (codepoints 48..57) and digits ten to fifteen map to
the lowercase letters `a`..`f` (codepoints 97..102). -/
def digitChar (d : Nat) : Char :=
  if d < 10 then Char.ofNat (d + 48) else Char.ofNat (d + 87)

/-- Fuel-driven most-significant-first digit emission in base `b`,
mirroring the repeated divide-and-take-remainder loop of Rust's integer
`Display`/`LowerHex` formatting.  The fuel only bounds the recursion
depth; any fuel above the value itself is enough. -/
def digitsAux (b : Nat) : Nat → Nat → List Char
  | 0, _ => []
  | fuel + 1, n =>
    if n < b then [digitChar n]
    else digitsAux b fuel (n / b) ++ [digitChar (n % b)]

/-- The base-`b` digit character list of `n`: minimal length, no leading
zero, and the value `0` is the single digit `0`. -/
def digitsBase (b n : Nat) : List Char := digitsAux b (n + 1) n

/-- Rust `format` with format spec `x` on an unsigned integer: lowercase
hexadecimal, no `0x` prefix, no padding. -/
def toHexLower (n : Nat) : String := ⟨digitsBase 16 n⟩

/-- Rust `u64::to_string`: decimal representation. -/
def toDecimal (n : Nat) : String := ⟨digitsBase 10 n⟩

/-- Numeric value of a hexadecimal digit character (accepting both cases,
as Rust's `from_str_radix(_, 16)` does); `none` on a non-hex character. -/
def hexDigitVal (c : Char) : Option Nat :=
  if 48 ≤ c.toNat ∧ c.toNat ≤ 57 then some (c.toNat - 48)
  else if 97 ≤ c.toNat ∧ c.toNat ≤ 102 then some (c.toNat - 87)
  else if 65 ≤ c.toNat ∧ c.toNat ≤ 70 then some (c.toNat - 55)
  else none

/-- Numeric value of a decimal digit character; `none` otherwise. -/
def decDigitVal (c : Char) : Option Nat :=
  if 48 ≤ c.toNat ∧ c.toNat ≤ 57 then some (c.toNat - 48)
  else none

/-- Left-to-right accumulation of digit values in base `b`, failing on the
first character the digit reader `dv` rejects. -/
def parseDigitsAux (dv : Char → Option Nat) (b : Nat) : List Char → Nat → Option Nat
  | [], acc => some acc
  | c :: cs, acc =>
    match dv c with
    | some d => parseDigitsAux dv b cs (acc * b + d)
    | none => none

/-- Parse a string as an unsigned hexadecimal number (the read-back
direction of the identifier encoding); the empty string is rejected. -/
def parseHex (s : String) : Option Nat :=
  if s.data = [] then none else parseDigitsAux hexDigitVal 16 s.data 0

/-- Parse a string as an unsigned decimal number; the empty string is
rejected. -/
def parseDec (s : String) : Option Nat :=
  if s.data = [] then none else parseDigitsAux decDigitVal 10 s.data 0

/-- `c` is one of the sixteen lowercase hexadecimal digit characters. -/
def isLowerHexDigit (c : Char) : Bool :=
  (decide (48 ≤ c.toNat) && decide (c.toNat ≤ 57)) ||
    (decide (97 ≤ c.toNat) && decide (c.toNat ≤ 102))

/-- `c` is a decimal digit character. -/
def isDecDigit (c : Char) : Bool :=
  decide (48 ≤ c.toNat) && decide (c.toNat ≤ 57)

/-- Stated from the spec's words, for comparison with the encoder taken
from the source: `s` is the identifier `n`'s lowercase minimal hexadecimal
textual representation — nonempty, made of lowercase hex digits only, no
`0x` prefix (the first character is itself a hex digit), no leading zero
except that the value `0` is the single-character token `0`, and reading
`s` back as hexadecimal yields `n`. -/
def specLowerHexToken (s : String) (n : Nat) : Bool :=
  !s.data.isEmpty &&
  s.data.all isLowerHexDigit &&
  (!(s.data.head? == some '0') || s == "0") &&
  (parseHex s == some n)

/-- Stated from the spec's words: `s` is the timestamp `n`'s decimal
string representation — nonempty decimal digits, no leading zero except
for the value `0`, reading back as decimal yields `n`. -/
def specDecimalToken (s : String) (n : Nat) : Bool :=
  !s.data.isEmpty &&
  s.data.all isDecDigit &&
  (!(s.data.head? == some '0') || s == "0") &&
  (parseDec s == some n)

/-! ## The client -/

/-- Abstract stand-in for `reqwest::Client`: an opaque transport handle.
The tag only serves to tell distinct handles apart in the model. -/
structure HttpClient where
  tag : Nat
deriving DecidableEq

/-- `reqwest::Client::new()`: the (one) transport handle the constructor
creates. -/
def HttpClient.make : HttpClient := ⟨0⟩

/-- The `Pyth` client state: `base_url: String` and `client: Client`,
exactly the two fields of `struct Pyth`. -/
structure Pyth where
  base_url : String
  client : HttpClient
deriving DecidableEq

/-- `Pyth::new(base_url)`: stores the base URL as given and eagerly
creates one transport handle. -/
def Pyth.new (base_url : String) : Pyth :=
  { base_url := base_url, client := HttpClient.make }

/-- `fn base_url(&self) -> &str` of `impl ApiClient for Pyth`: returns the
stored base URL field. -/
def Pyth.baseUrlFn (p : Pyth) : String := p.base_url

/-- `fn client(&self) -> &Client` of `impl ApiClient for Pyth`: returns
the stored transport handle field. -/
def Pyth.clientFn (p : Pyth) : HttpClient := p.client

/-- A `reqwest::RequestBuilder`, reduced to the parts this client
touches: target URL, HTTP method, and the ordered query pair list. -/
structure RequestBuilder where
  url : String
  method : String
  query : List (String × String)
deriving DecidableEq

/-- `fn customize(&self, req: RequestBuilder) -> RequestBuilder { req }`:
the `Pyth` customization hook returns the builder unchanged. -/
def Pyth.customize (_p : Pyth) (req : RequestBuilder) : RequestBuilder := req

/-- `struct PriceParams { ids: Vec<u64>, timestamp: u64 }` (the
historical price request).  Identifiers and timestamp are unsigned 64-bit
values; the embedding carries them as naturals and states 64-bit bounds
where a claim needs them. -/
structure PriceParams where
  ids : List Nat
  timestamp : Nat
deriving DecidableEq

/-- `PriceParams::new`. -/
def PriceParams.new (ids : List Nat) (timestamp : Nat) : PriceParams :=
  { ids := ids, timestamp := timestamp }

/-- The route literal of `get_price`. -/
def getPriceRoute : String := "updates/price/"

/-- The route literal of `get_latest_price`. -/
def getLatestPriceRoute : String := "updates/price/latest"

/-- The query pair list `get_price` builds: one `("ids[]", format spec x)`
pair per identifier in input order, then the pushed
`("timestamp", to_string)` pair. -/
def getPriceQuery (params : PriceParams) : List (String × String) :=
  (params.ids.map fun id => ("ids[]", toHexLower id)) ++
    [("timestamp", toDecimal params.timestamp)]

/-- The query pair list `get_latest_price` builds: only the
`("ids[]", format spec x)` pairs, in input order. -/
def getLatestPriceQuery (ids : List Nat) : List (String × String) :=
  ids.map fun id => ("ids[]", toHexLower id)

/-- Modelled from the spec: the `ApiClient` trait's request helper (its
definition lives outside `src/`).  It resolves the full URL from
`base_url()` plus the relative route, uses method GET, and attaches the
given query pairs; `customize` is applied to the result before dispatch. -/
def ApiClient.buildRequest (p : Pyth) (route : String)
    (query : List (String × String)) : RequestBuilder :=
  p.customize { url := p.baseUrlFn ++ route, method := "GET", query := query }

/-- The full request `get_price` hands to the shared execution routine. -/
def getPriceRequest (p : Pyth) (params : PriceParams) : RequestBuilder :=
  ApiClient.buildRequest p getPriceRoute (getPriceQuery params)

/-- The full request `get_latest_price` hands to the shared execution
routine. -/
def getLatestPriceRequest (p : Pyth) (ids : List Nat) : RequestBuilder :=
  ApiClient.buildRequest p getLatestPriceRoute (getLatestPriceQuery ids)

/-! ## Errors and the shared execution routine (modelled from the spec) -/

/-- Modelled from the spec: the `crate::error` taxonomy (the `error`
module is not under `src/`).  Three distinguishable failure kinds:
transport failure, non-success HTTP status (carrying status and body),
and response-body decode failure. -/
inductive ApiError where
  | transport : ApiError
  | httpStatus : Nat → String → ApiError
  | decode : ApiError
deriving DecidableEq

/-- What the network hands back for one dispatched request: either no
connection was established, or a response with a status code and body. -/
inductive HttpOutcome where
  | noConnection : HttpOutcome
  | response : Nat → String → HttpOutcome
deriving DecidableEq

/-- Modelled from the spec: the `ApiClient` shared execution routine's
result handling (its definition lives outside `src/`).  One dispatch, no
retry: a connection failure is a transport error; a non-2xx status is an
HTTP status error carrying status and body; a 2xx body that the decoder
`decode` rejects is a decode error; otherwise the decoded value. -/
def ApiClient.execute {α : Type} (outcome : HttpOutcome)
    (decode : String → Option α) : Except ApiError α :=
  match outcome with
  | HttpOutcome.noConnection => Except.error ApiError.transport
  | HttpOutcome.response status body =>
    if 200 ≤ status ∧ status < 300 then
      match decode body with
      | some v => Except.ok v
      | none => Except.error ApiError.decode
    else Except.error (ApiError.httpStatus status body)

/-! ## Digit-emission lemmas -/

lemma digitsAux_fuel_irrel (b : Nat) (hb : 2 ≤ b) :
    ∀ n f1 f2, n < f1 → n < f2 → digitsAux b f1 n = digitsAux b f2 n := by
  intro n
  induction n using Nat.strong_induction_on with
  | _ n ih =>
    intro f1 f2 h1 h2
    cases f1 with
    | zero => omega
    | succ f1 =>
      cases f2 with
      | zero => omega
      | succ f2 =>
        simp only [digitsAux]
        by_cases hn : n < b
        · simp [hn]
        · have hdiv : n / b < n := Nat.div_lt_self (by omega) (by omega)
          simp only [hn, if_false]
          rw [ih (n / b) hdiv f1 f2 (by omega) (by omega)]

lemma digitsBase_of_lt (b n : Nat) (h : n < b) : digitsBase b n = [digitChar n] := by
  simp [digitsBase, digitsAux, h]

lemma digitsAux_succ (b fuel n : Nat) :
    digitsAux b (fuel + 1) n =
      if n < b then [digitChar n]
      else digitsAux b fuel (n / b) ++ [digitChar (n % b)] := rfl

lemma digitsBase_of_ge (b n : Nat) (hb : 2 ≤ b) (h : b ≤ n) :
    digitsBase b n = digitsBase b (n / b) ++ [digitChar (n % b)] := by
  have hn : ¬ n < b := by omega
  have hdiv : n / b < n := Nat.div_lt_self (by omega) (by omega)
  rw [digitsBase, digitsAux_succ, if_neg hn,
    digitsAux_fuel_irrel b hb (n / b) n (n / b + 1) hdiv (Nat.lt_succ_self _)]
  rfl

lemma digitsBase_ne_nil (b n : Nat) (hb : 2 ≤ b) : digitsBase b n ≠ [] := by
  by_cases h : n < b
  · rw [digitsBase_of_lt b n h]; simp
  · rw [digitsBase_of_ge b n hb (by omega)]; simp

lemma digitsBase_all (b : Nat) (hb : 2 ≤ b) (p : Char → Bool)
    (hp : ∀ d, d < b → p (digitChar d) = true) :
    ∀ n, (digitsBase b n).all p = true := by
  intro n
  induction n using Nat.strong_induction_on with
  | _ n ih =>
    by_cases h : n < b
    · rw [digitsBase_of_lt b n h]
      simp [hp n h]
    · have hdiv : n / b < n := Nat.div_lt_self (by omega) (by omega)
      rw [digitsBase_of_ge b n hb (by omega)]
      simp [List.all_append, ih (n / b) hdiv, hp (n % b) (Nat.mod_lt _ (by omega))]

lemma digitsBase_head_ne_zero (b : Nat) (hb : 2 ≤ b)
    (hzero : ∀ d, d < b → d ≠ 0 → digitChar d ≠ '0') :
    ∀ n, n ≠ 0 → (digitsBase b n).head? ≠ some '0' := by
  intro n
  induction n using Nat.strong_induction_on with
  | _ n ih =>
    intro hn0
    by_cases h : n < b
    · rw [digitsBase_of_lt b n h]
      simp [hzero n h hn0]
    · have hdiv : n / b < n := Nat.div_lt_self (by omega) (by omega)
      have hpos : 0 < n / b := Nat.div_pos (by omega) (by omega)
      rw [digitsBase_of_ge b n hb (by omega),
        List.head?_append_of_ne_nil _ (digitsBase_ne_nil b (n / b) hb)]
      exact ih (n / b) hdiv (by omega)

/-! ## Parsing lemmas -/

lemma parseDigitsAux_append (dv : Char → Option Nat) (b : Nat) :
    ∀ l1 l2 acc, parseDigitsAux dv b (l1 ++ l2) acc =
      match parseDigitsAux dv b l1 acc with
      | some m => parseDigitsAux dv b l2 m
      | none => none := by
  intro l1
  induction l1 with
  | nil => intro l2 acc; simp [parseDigitsAux]
  | cons c cs ih =>
    intro l2 acc
    simp only [List.cons_append, parseDigitsAux]
    cases hdv : dv c <;> simp [hdv, ih]

lemma parseDigitsAux_digitsBase (dv : Char → Option Nat) (b : Nat) (hb : 2 ≤ b)
    (hdv : ∀ d, d < b → dv (digitChar d) = some d) :
    ∀ n acc, parseDigitsAux dv b (digitsBase b n) acc =
      some (acc * b ^ (digitsBase b n).length + n) := by
  intro n
  induction n using Nat.strong_induction_on with
  | _ n ih =>
    intro acc
    by_cases h : n < b
    · rw [digitsBase_of_lt b n h]
      simp [parseDigitsAux, hdv n h]
    · have hble : b ≤ n := by omega
      have hdiv : n / b < n := Nat.div_lt_self (by omega) (by omega)
      rw [digitsBase_of_ge b n hb hble, parseDigitsAux_append, ih (n / b) hdiv acc]
      simp only [parseDigitsAux, hdv (n % b) (Nat.mod_lt _ (by omega)),
        List.length_append, List.length_cons, List.length_nil, Option.some.injEq]
      have h1 : n / b * b + n % b = n := by
        rw [Nat.mul_comm]; exact Nat.div_add_mod n b
      calc (acc * b ^ (digitsBase b (n / b)).length + n / b) * b + n % b
          = acc * (b ^ (digitsBase b (n / b)).length * b) + (n / b * b + n % b) := by ring
        _ = acc * b ^ ((digitsBase b (n / b)).length + 1) + n := by rw [h1, ← pow_succ]

lemma parseHex_toHexLower (n : Nat) : parseHex (toHexLower n) = some n := by
  have hdv : ∀ d, d < 16 → hexDigitVal (digitChar d) = some d := by decide
  have hne : (toHexLower n).data ≠ [] := digitsBase_ne_nil 16 n (by omega)
  rw [parseHex, if_neg hne]
  show parseDigitsAux hexDigitVal 16 (digitsBase 16 n) 0 = some n
  rw [parseDigitsAux_digitsBase hexDigitVal 16 (by omega) hdv n 0]
  simp

lemma parseDec_toDecimal (n : Nat) : parseDec (toDecimal n) = some n := by
  have hdv : ∀ d, d < 10 → decDigitVal (digitChar d) = some d := by decide
  have hne : (toDecimal n).data ≠ [] := digitsBase_ne_nil 10 n (by omega)
  rw [parseDec, if_neg hne]
  show parseDigitsAux decDigitVal 10 (digitsBase 10 n) 0 = some n
  rw [parseDigitsAux_digitsBase decDigitVal 10 (by omega) hdv n 0]
  simp

lemma specLowerHexToken_toHexLower (n : Nat) :
    specLowerHexToken (toHexLower n) n = true := by
  by_cases h0 : n = 0
  · subst h0; decide
  · have hne : (toHexLower n).data ≠ [] := digitsBase_ne_nil 16 n (by omega)
    have hall : (toHexLower n).data.all isLowerHexDigit = true :=
      digitsBase_all 16 (by omega) isLowerHexDigit (by decide) n
    have hhead : (toHexLower n).data.head? ≠ some '0' :=
      digitsBase_head_ne_zero 16 (by omega) (by decide) n h0
    have hparse := parseHex_toHexLower n
    simp only [specLowerHexToken, Bool.and_eq_true, Bool.or_eq_true, Bool.not_eq_true',
      beq_iff_eq, beq_eq_false_iff_ne, ne_eq, List.isEmpty_eq_false, hall, hparse]
    exact ⟨⟨⟨hne, trivial⟩, Or.inl hhead⟩, trivial⟩

lemma specDecimalToken_toDecimal (n : Nat) :
    specDecimalToken (toDecimal n) n = true := by
  by_cases h0 : n = 0
  · subst h0; decide
  · have hne : (toDecimal n).data ≠ [] := digitsBase_ne_nil 10 n (by omega)
    have hall : (toDecimal n).data.all isDecDigit = true :=
      digitsBase_all 10 (by omega) isDecDigit (by decide) n
    have hhead : (toDecimal n).data.head? ≠ some '0' :=
      digitsBase_head_ne_zero 10 (by omega) (by decide) n h0
    have hparse := parseDec_toDecimal n
    simp only [specDecimalToken, Bool.and_eq_true, Bool.or_eq_true, Bool.not_eq_true',
      beq_iff_eq, beq_eq_false_iff_ne, ne_eq, List.isEmpty_eq_false, hall, hparse]
    exact ⟨⟨⟨hne, trivial⟩, Or.inl hhead⟩, trivial⟩

/-! ## Claims -/

/-- C1: for every historical price request, `get_price` builds its query
as one pair per identifier, key exactly `ids[]`, value the identifier's
lowercase minimal hexadecimal representation, in input order, followed by
exactly one final `timestamp` pair whose value is the timestamp's decimal
string representation. -/
theorem get_price_query_correct (params : PriceParams) (i id : Nat)
    (h : params.ids[i]? = some id) :
    (getPriceQuery params).length = params.ids.length + 1 ∧
    (getPriceQuery params)[i]? = some ("ids[]", toHexLower id) ∧
    specLowerHexToken (toHexLower id) id = true ∧
    (getPriceQuery params).getLast? = some ("timestamp", toDecimal params.timestamp) ∧
    specDecimalToken (toDecimal params.timestamp) params.timestamp = true := by
  have hi : i < params.ids.length := by
    by_contra hc
    rw [List.getElem?_eq_none_iff.mpr (by omega)] at h
    exact Option.noConfusion h
  refine ⟨?_, ?_, specLowerHexToken_toHexLower id, ?_, specDecimalToken_toDecimal _⟩
  · simp [getPriceQuery]
  · rw [getPriceQuery, List.getElem?_append_left (by simpa using hi),
      List.getElem?_map, h]
    rfl
  · rw [getPriceQuery, List.getLast?_concat]

theorem get_price_query_correct_witness :
    ((PriceParams.new [5] 7).ids[0]? = some 5) ∧
    ((getPriceQuery (PriceParams.new [5] 7)).length = (PriceParams.new [5] 7).ids.length + 1 ∧
     (getPriceQuery (PriceParams.new [5] 7))[0]? = some ("ids[]", toHexLower 5) ∧
     specLowerHexToken (toHexLower 5) 5 = true ∧
     (getPriceQuery (PriceParams.new [5] 7)).getLast? = some ("timestamp", toDecimal 7) ∧
     specDecimalToken (toDecimal 7) 7 = true) :=
  ⟨by decide, get_price_query_correct (PriceParams.new [5] 7) 0 5 (by decide)⟩

/-- C2: `get_latest_price` uses route `updates/price/latest`, distinct
from `get_price`'s `updates/price/`; its query is exactly the same
repeated-key `ids[]` lowercase-hex pair list, in the same order and by the
same encoding, that `get_price` builds before appending its timestamp
pair; and no pair of its query has key `timestamp`. -/
theorem get_latest_price_route_and_query (ids : List Nat) (ts : Nat) :
    getLatestPriceRoute = "updates/price/latest" ∧
    getPriceRoute = "updates/price/" ∧
    getLatestPriceRoute ≠ getPriceRoute ∧
    getPriceQuery (PriceParams.new ids ts) =
      getLatestPriceQuery ids ++ [("timestamp", toDecimal ts)] ∧
    getLatestPriceQuery ids = ids.map (fun id => ("ids[]", toHexLower id)) ∧
    (getLatestPriceQuery ids).all (fun pr => pr.1 != "timestamp") = true := by
  refine ⟨rfl, rfl, by decide, rfl, rfl, ?_⟩
  simp only [getLatestPriceQuery, List.all_eq_true, List.mem_map]
  rintro pr ⟨id, _, rfl⟩
  rfl

/-- C3: the concrete historical request with identifiers 1, 255, 4096 and
timestamp 1700000000 yields exactly the three `ids[]` pairs with values
`1`, `ff`, `1000`, in that order, then the single `timestamp` pair with
value `1700000000`. -/
theorem get_price_query_example :
    getPriceQuery (PriceParams.new [1, 255, 4096] 1700000000) =
      [("ids[]", "1"), ("ids[]", "ff"), ("ids[]", "1000"),
       ("timestamp", "1700000000")] := by decide

/-- C4: for every unsigned 64-bit identifier, the client's hex encoding
followed by a hexadecimal parse of the emitted token yields the identifier
back exactly (lossless round-trip). -/
theorem hex_encode_roundtrip (id : Nat) (h : id < 2 ^ 64) :
    parseHex (toHexLower id) = some id :=
  parseHex_toHexLower id

theorem hex_encode_roundtrip_witness :
    ((255 : Nat) < 2 ^ 64) ∧ parseHex (toHexLower 255) = some 255 :=
  ⟨by decide, hex_encode_roundtrip 255 (by decide)⟩

/-- C5: the identifier value `0` encodes to the literal one-character
token `0`: no `0x` prefix and no zero padding. -/
theorem zero_encodes_as_single_zero :
    toHexLower 0 = "0" ∧ (toHexLower 0).data = ['0'] := by decide

/-- C6: with an empty identifier sequence neither operation validates or
rejects: requests are still built, `get_price`'s query being exactly the
one timestamp pair and `get_latest_price`'s query being empty, with zero
`ids[]` entries in both. -/
theorem empty_ids_no_validation (p : Pyth) (ts : Nat) :
    getPriceQuery (PriceParams.new [] ts) = [("timestamp", toDecimal ts)] ∧
    getLatestPriceQuery [] = [] ∧
    getPriceRequest p (PriceParams.new [] ts) =
      { url := p.base_url ++ getPriceRoute, method := "GET",
        query := [("timestamp", toDecimal ts)] } ∧
    getLatestPriceRequest p [] =
      { url := p.base_url ++ getLatestPriceRoute, method := "GET", query := [] } ∧
    (getPriceQuery (PriceParams.new [] ts)).countP (fun pr => pr.1 == "ids[]") = 0 := by
  exact ⟨rfl, rfl, rfl, rfl, rfl⟩

/-- C7: every failure of a client operation surfaces as one of three
mutually distinguishable typed errors — transport, HTTP status (carrying
status and body), and decode — and every run of the execution routine ends
in a success or exactly one of those three, with no retry or fallback
(one outcome in, one result out). -/
theorem execute_error_taxonomy {α : Type} (decode : String → Option α)
    (sBad sOk : Nat) (body : String)
    (hBad : ¬ (200 ≤ sBad ∧ sBad < 300))
    (hOk : 200 ≤ sOk ∧ sOk < 300)
    (hDec : decode body = none) :
    ApiClient.execute HttpOutcome.noConnection decode = Except.error ApiError.transport ∧
    ApiClient.execute (HttpOutcome.response sBad body) decode =
      Except.error (ApiError.httpStatus sBad body) ∧
    ApiClient.execute (HttpOutcome.response sOk body) decode =
      Except.error ApiError.decode ∧
    ApiError.transport ≠ ApiError.httpStatus sBad body ∧
    ApiError.transport ≠ ApiError.decode ∧
    ApiError.httpStatus sBad body ≠ ApiError.decode ∧
    (∀ o : HttpOutcome,
      (∃ v, ApiClient.execute o decode = Except.ok v) ∨
      ApiClient.execute o decode = Except.error ApiError.transport ∨
      (∃ s b, ApiClient.execute o decode = Except.error (ApiError.httpStatus s b)) ∨
      ApiClient.execute o decode = Except.error ApiError.decode) := by
  refine ⟨rfl, ?_, ?_, by simp, by simp, by simp, ?_⟩
  · simp [ApiClient.execute, hBad]
  · simp [ApiClient.execute, hOk, hDec]
  · intro o
    cases o with
    | noConnection => exact Or.inr (Or.inl rfl)
    | response s b =>
      by_cases hs : 200 ≤ s ∧ s < 300
      · cases hd : decode b with
        | none =>
          exact Or.inr (Or.inr (Or.inr (by simp [ApiClient.execute, hs, hd])))
        | some v =>
          exact Or.inl ⟨v, by simp [ApiClient.execute, hs, hd]⟩
      · exact Or.inr (Or.inr (Or.inl ⟨s, b, by simp [ApiClient.execute, hs]⟩))

theorem execute_error_taxonomy_witness :
    (¬ (200 ≤ (404 : Nat) ∧ (404 : Nat) < 300)) ∧
    (200 ≤ (200 : Nat) ∧ (200 : Nat) < 300) ∧
    ((fun _ : String => (none : Option Nat)) "x" = none) ∧
    (ApiClient.execute HttpOutcome.noConnection (fun _ : String => (none : Option Nat)) =
        Except.error ApiError.transport ∧
      ApiClient.execute (HttpOutcome.response 404 "x") (fun _ : String => (none : Option Nat)) =
        Except.error (ApiError.httpStatus 404 "x") ∧
      ApiClient.execute (HttpOutcome.response 200 "x") (fun _ : String => (none : Option Nat)) =
        Except.error ApiError.decode ∧
      ApiError.transport ≠ ApiError.httpStatus 404 "x" ∧
      ApiError.transport ≠ ApiError.decode ∧
      ApiError.httpStatus 404 "x" ≠ ApiError.decode ∧
      (∀ o : HttpOutcome,
        (∃ v, ApiClient.execute o (fun _ : String => (none : Option Nat)) = Except.ok v) ∨
        ApiClient.execute o (fun _ : String => (none : Option Nat)) =
          Except.error ApiError.transport ∨
        (∃ s b, ApiClient.execute o (fun _ : String => (none : Option Nat)) =
          Except.error (ApiError.httpStatus s b)) ∨
        ApiClient.execute o (fun _ : String => (none : Option Nat)) =
          Except.error ApiError.decode)) :=
  ⟨by decide, by decide, rfl,
    execute_error_taxonomy (fun _ => none) 404 200 "x" (by decide) (by decide) rfl⟩

/-- C8: the client configuration is immutable after construction:
`new(base_url)` stores the base URL exactly as given (no trailing-slash
normalization) and eagerly creates one transport handle; `base_url()`
always returns the stored string and `client()` always returns the handle
created at construction. -/
theorem pyth_config_immutable (u : String) (p : Pyth) :
    (Pyth.new u).base_url = u ∧
    (Pyth.new u).client = HttpClient.make ∧
    Pyth.baseUrlFn p = p.base_url ∧
    Pyth.clientFn p = p.client ∧
    Pyth.baseUrlFn (Pyth.new u) = u ∧
    Pyth.clientFn (Pyth.new u) = HttpClient.make :=
  ⟨rfl, rfl, rfl, rfl, rfl, rfl⟩

/-- C9: identifier encoding is deterministic across operations and
invocations: whenever the same numeric identifier value occurs (at any
position, in any call of `get_price` or `get_latest_price`), the emitted
query pair is identical — key `ids[]` and the same hex token, a function
of the value alone. -/
theorem id_encoding_deterministic (ids1 ids2 : List Nat) (ts i j a : Nat)
    (h1 : ids1[i]? = some a) (h2 : ids2[j]? = some a) :
    (getPriceQuery (PriceParams.new ids1 ts))[i]? = some ("ids[]", toHexLower a) ∧
    (getLatestPriceQuery ids2)[j]? = some ("ids[]", toHexLower a) := by
  have hi : i < ids1.length := by
    by_contra hc
    rw [List.getElem?_eq_none_iff.mpr (by omega)] at h1
    exact Option.noConfusion h1
  constructor
  · rw [getPriceQuery, List.getElem?_append_left (by simpa using hi)]
    show (ids1.map fun id => ("ids[]", toHexLower id))[i]? = _
    rw [List.getElem?_map, h1]
    rfl
  · rw [getLatestPriceQuery, List.getElem?_map, h2]
    rfl

theorem id_encoding_deterministic_witness :
    (([7] : List Nat)[0]? = some 7) ∧ (([3, 7] : List Nat)[1]? = some 7) ∧
    ((getPriceQuery (PriceParams.new [7] 0))[0]? = some ("ids[]", toHexLower 7) ∧
     (getLatestPriceQuery [3, 7])[1]? = some ("ids[]", toHexLower 7)) :=
  ⟨by decide, by decide, id_encoding_deterministic [7] [3, 7] 0 0 1 7 (by decide) (by decide)⟩

/-- C10: `Pyth`'s `customize` hook is the identity transformation: every
request builder passes through unchanged, so in particular its target URL
and method are untouched. -/
theorem customize_is_identity (p : Pyth) (req : RequestBuilder) :
    p.customize req = req ∧
    (p.customize req).url = req.url ∧
    (p.customize req).method = req.method :=
  ⟨rfl, rfl, rfl⟩
